import Mathlib

/-!
# Verification of the incremental ICC-rankings fetch-and-merge engine

Shallow embedding of `masterfile.py`.  Calendar dates are modelled as natural
numbers counting days since 1900-01-01 (which was a Monday, so Python's
`weekday()` with Mon = 0 is plain `% 7`).  The cutoff calculator works on `Int`
day numbers so that subtraction behaves as Python's date arithmetic does.
-/

namespace ICC

/-! ## Calendar arithmetic (models `datetime.date` / `strftime("%Y/%m/%d")`) -/

def isLeap (y : Nat) : Bool :=
  (y % 4 == 0 && y % 100 != 0) || y % 400 == 0

def daysInYear (y : Nat) : Nat :=
  if isLeap y then 366 else 365

def monthLengths (y : Nat) : List Nat :=
  [31, if isLeap y then 29 else 28, 31, 30, 31, 30, 31, 31, 30, 31, 30, 31]

/-- Split a day count into (year, day-of-year), starting from year `y`.
Fuel-based structural recursion so the kernel can evaluate it. -/
def splitYearFuel : Nat → Nat → Nat → Nat × Nat
  | 0, y, d => (y, d)
  | fuel + 1, y, d =>
    if d < daysInYear y then (y, d) else splitYearFuel fuel (y + 1) (d - daysInYear y)

def splitYear (y d : Nat) : Nat × Nat :=
  splitYearFuel (d + 1) y d

/-- Split a day-of-year into (month, day-of-month-counted-from-0). -/
def splitMonth : List Nat → Nat → Nat → Nat × Nat
  | [], m, d => (m, d)
  | len :: rest, m, d => if d < len then (m, d) else splitMonth rest (m + 1) (d - len)

def pad2 (n : Nat) : String :=
  if n < 10 then "0" ++ toString n else toString n

/-- `date_obj.strftime("%Y/%m/%d")` for a day number counted from 1900-01-01. -/
def dateToStr (days : Nat) : String :=
  let yd := splitYear 1900 days
  let md := splitMonth (monthLengths yd.1) 1 yd.2
  toString yd.1 ++ "/" ++ pad2 md.1 ++ "/" ++ pad2 (md.2 + 1)

/-- 1971-01-01 as days since 1900-01-01. -/
def day19710101 : Nat := 25932

/-- The sentinel watermark `datetime(1971,1,1).date() - timedelta(days=1)`,
i.e. 1970-12-31. -/
def freshSentinel : Nat := day19710101 - 1

/-- 1971-01-05 (the first Tuesday of 1971) as days since 1900-01-01. -/
def day19710105 : Nat := 25936

/-! ## Data model -/

/-- One row of the master dataset, with the `Date` column parsed
(`pd.to_datetime`) to a comparable day number. -/
structure Record where
  date : Nat
  format : String
  category : String
  rank : String
  player : String
  rating : String
deriving DecidableEq, Repr

/-- One freshly scraped row, whose date is still the `YYYY/MM/DD` string the
scraper tags it with. -/
structure RawRecord where
  dateStr : String
  format : String
  category : String
  rank : String
  player : String
  rating : String
deriving DecidableEq, Repr

/-! ## Merge engine: `pd.concat` + `drop_duplicates` + `sort_values` -/

/-- Generic lexicographic comparison step: compare by the projection `f`
first, tie-break with `next`. -/
def lexLe {γ : Type} {α : Type} [LinearOrder α] (f : γ → α) (next : γ → γ → Bool)
    (a b : γ) : Bool :=
  decide (f a < f b) || (decide (f a = f b) && next a b)

/-- The canonical ordering `sort_values(["Format","Category","Date","Rank"])`. -/
def keyLe : Record → Record → Bool :=
  lexLe Record.format <| lexLe Record.category <| lexLe Record.date <|
    fun a b => decide (a.rank ≤ b.rank)

/-- `drop_duplicates` keeps the first occurrence of each duplicate group:
accumulator-based so the kernel can evaluate it. -/
def dedupGo : List Record → List Record → List Record
  | [], _ => []
  | r :: rs, seen => if r ∈ seen then dedupGo rs seen else r :: dedupGo rs (r :: seen)

def dedupFirst (l : List Record) : List Record :=
  dedupGo l []

/-- `combined.drop_duplicates(subset=[all six columns]).sort_values(["Format","Category","Date","Rank"])`
applied to `pd.concat([df_master, new_df])`. -/
def merge (master newRecords : List Record) : List Record :=
  (dedupFirst (master ++ newRecords)).mergeSort keyLe

/-! ## Cutoff calculator: `last_tuesday_ist` -/

/-- `last_tuesday_ist`, given the current date in IST as an `Int` day number
counted from 1900-01-01 (a Monday, so `weekday() == d % 7` with Mon = 0). -/
def last_tuesday_ist (nowIST : Int) (strict : Bool) : Int :=
  let wd : Int := nowIST % 7
  let delta : Int := (wd - 1) % 7
  let delta : Int := if strict && wd == 1 then 7 else delta
  nowIST - delta

/-! ## Gap planner (the job-building loop of `main`) -/

def FORMATS : List String := ["odi", "test"]
def CATEGORIES : List String := ["batting", "bowling"]
def MAX_RETRIES : Nat := 3

/-- A work unit `(d, fmt, cat)`. -/
abbrev WorkUnit := Nat × String × String

/-- `df_sub["Date"].max().date()` when the pair has rows, else
`datetime(1971,1,1).date() - timedelta(days=1)`. -/
def watermark (master : List Record) (fmt cat : String) : Nat :=
  match master.filter (fun r => r.format == fmt && r.category == cat) with
  | [] => freshSentinel
  | r :: rs => rs.foldl (fun acc x => max acc x.date) r.date

/-- The dates planned for one (format, category) pair:
`[start_date + i for i in range((end_date - start_date).days + 1)]` with
`start_date = last_date + 1`, skipped entirely when `last_date >= end_date`. -/
def planGapsPair (master : List Record) (endDate : Nat) (fmt cat : String) :
    List WorkUnit :=
  let last := watermark master fmt cat
  if last ≥ endDate then []
  else (List.range (endDate - (last + 1) + 1)).map fun i => (last + 1 + i, fmt, cat)

/-- The full job list: the nested `for fmt in FORMATS: for cat in CATEGORIES:`
loop of `main`. -/
def planGaps (master : List Record) (endDate : Nat)
    (formats categories : List String) : List WorkUnit :=
  formats.flatMap fun fmt => categories.flatMap fun cat =>
    planGapsPair master endDate fmt cat

/-! ## Unit fetcher: `scrape_date`

The network and the HTML parser are external collaborators; one attempt of the
`for _ in range(MAX_RETRIES)` loop is modelled by an oracle value: either the
`try` block raises somewhere (`exn`), or `session.get` returns a response with
a status code and a body.  The body is abstracted to its `table` elements, each
a list of `tr` rows, each row the list of texts of its `td` cells, so that
`soup.select("table tr")` is the concatenation of all tables' rows in document
order. -/

structure Response where
  status : Nat
  tables : List (List (List String))
deriving DecidableEq, Repr

inductive Attempt where
  | exn : Attempt
  | resp : Response → Attempt
deriving DecidableEq, Repr

/-- Observable events of one `scrape_date` call: an attempted request (with
its outcome) or a `time.sleep(1)` backoff. -/
inductive Ev where
  | req : Attempt → Ev
  | slept : Ev
deriving DecidableEq, Repr

/-- `rows = soup.select("table tr")[1:101]`. -/
def parseRows (tables : List (List (List String))) : List (List String) :=
  (tables.flatten.drop 1).take 100

/-- Strip leading and trailing whitespace from a text (the effect of
`get_text(strip=True)` on a single text node). -/
def trimText (s : String) : String :=
  ⟨((s.data.dropWhile Char.isWhitespace).reverse.dropWhile Char.isWhitespace).reverse⟩

/-- One element of the list comprehension: rows whose `find_all("td")` has at
least three cells yield a record from the first three cell texts,
`get_text(strip=True)` modelled by `trimText`; shorter rows are dropped. -/
def rowToRecord (dateStr fmt cat : String) (row : List String) : Option RawRecord :=
  match row with
  | c0 :: c1 :: c2 :: _ =>
    some ⟨dateStr, fmt, cat, trimText c0, trimText c1, trimText c2⟩
  | _ => none

/-- The record list built from a successfully fetched body (the `return [...]`
comprehension, which is also `[]` when `rows` is empty). -/
def parseRecords (dateStr fmt cat : String) (tables : List (List (List String))) :
    List RawRecord :=
  (parseRows tables).filterMap (rowToRecord dateStr fmt cat)

/-- The retry loop of `scrape_date`: attempt `k` consults `oracle k`.
An exception backs off one time unit (`time.sleep(1)`) and retries; a
non-200 status `continue`s straight to the next attempt; a 200 response is
parsed and returned at once.  Returns the produced records together with the
event trace. -/
def scrapeAttempts (dateStr fmt cat : String) (oracle : Nat → Attempt) :
    Nat → Nat → List RawRecord × List Ev
  | _, 0 => ([], [])
  | k, fuel + 1 =>
    match oracle k with
    | .exn =>
      let rest := scrapeAttempts dateStr fmt cat oracle (k + 1) fuel
      (rest.1, .req .exn :: .slept :: rest.2)
    | .resp r =>
      if r.status = 200 then
        (parseRecords dateStr fmt cat r.tables, [.req (.resp r)])
      else
        let rest := scrapeAttempts dateStr fmt cat oracle (k + 1) fuel
        (rest.1, .req (.resp r) :: rest.2)

/-- `scrape_date(date_obj, fmt, category)` under the attempt oracle. -/
def scrape_date (dateObj : Nat) (fmt cat : String) (oracle : Nat → Attempt) :
    List RawRecord × List Ev :=
  scrapeAttempts (dateToStr dateObj) fmt cat oracle 0 MAX_RETRIES

/-- An attempt that fails: it raises, or its response status is not 200. -/
def isFailB : Attempt → Bool
  | .exn => true
  | .resp r => r.status != 200

def isReq : Ev → Bool
  | .req _ => true
  | .slept => false

def isFailedReq : Ev → Bool
  | .req a => isFailB a
  | .slept => false

/-- Number of attempts actually made in a trace. -/
def countReqs (tr : List Ev) : Nat :=
  (tr.filter isReq).length

/-- The events one failed attempt contributes to the trace. -/
def evFail : Attempt → List Ev
  | .exn => [.req .exn, .slept]
  | .resp r => [.req (.resp r)]

/-! ## Main pipeline control flow (`main` after loading the master) -/

/-- The run after the master is loaded: `None` means the function `return`ed
before `combined.to_csv`, i.e. the persisted file is untouched; `some m` means
`m` is written.  The worker pool is abstracted by `fetch`, its flat
result accumulation by `flatMap` (completion order is irrelevant here). -/
def mainRun (master : List Record) (endDate : Nat)
    (fetch : WorkUnit → List Record) : Option (List Record) :=
  let jobs := planGaps master endDate FORMATS CATEGORIES
  if jobs = [] then none
  else
    let results := jobs.flatMap fetch
    if results = [] then none
    else some (merge master results)

/-! ## Lemmas about the canonical ordering -/

theorem lexLe_trans {γ α : Type} [LinearOrder α] (f : γ → α) (next : γ → γ → Bool)
    (hnext : ∀ a b c, next a b = true → next b c = true → next a c = true) :
    ∀ a b c, lexLe f next a b = true → lexLe f next b c = true →
      lexLe f next a c = true := by
  intro a b c h1 h2
  simp only [lexLe, Bool.or_eq_true, Bool.and_eq_true, decide_eq_true_eq] at *
  rcases h1 with h1 | ⟨e1, n1⟩ <;> rcases h2 with h2 | ⟨e2, n2⟩
  · exact Or.inl (lt_trans h1 h2)
  · exact Or.inl (lt_of_lt_of_le h1 (le_of_eq e2))
  · exact Or.inl (lt_of_le_of_lt (le_of_eq e1) h2)
  · exact Or.inr ⟨e1.trans e2, hnext _ _ _ n1 n2⟩

theorem lexLe_total {γ α : Type} [LinearOrder α] (f : γ → α) (next : γ → γ → Bool)
    (hnext : ∀ a b, next a b || next b a) :
    ∀ a b, lexLe f next a b || lexLe f next b a := by
  intro a b
  simp only [lexLe, Bool.or_eq_true, Bool.and_eq_true, decide_eq_true_eq]
  rcases lt_trichotomy (f a) (f b) with h | h | h
  · exact Or.inl (Or.inl h)
  · rcases Bool.or_eq_true _ _ |>.mp (hnext a b) with hn | hn
    · exact Or.inl (Or.inr ⟨h, hn⟩)
    · exact Or.inr (Or.inr ⟨h.symm, hn⟩)
  · exact Or.inr (Or.inl h)

theorem keyLe_trans : ∀ a b c, keyLe a b = true → keyLe b c = true →
    keyLe a c = true := by
  refine lexLe_trans _ _ (lexLe_trans _ _ (lexLe_trans _ _ ?_))
  intro a b c h1 h2
  simp only [decide_eq_true_eq] at *
  exact le_trans h1 h2

theorem keyLe_total : ∀ a b, keyLe a b || keyLe b a := by
  refine lexLe_total _ _ (lexLe_total _ _ (lexLe_total _ _ ?_))
  intro a b
  simp only [Bool.or_eq_true, decide_eq_true_eq]
  exact le_total a.rank b.rank

/-! ## Lemmas about deduplication -/

theorem mem_dedupGo {a : Record} : ∀ {l seen : List Record},
    a ∈ dedupGo l seen ↔ a ∈ l ∧ a ∉ seen := by
  intro l
  induction l with
  | nil => intro seen; simp [dedupGo]
  | cons r rs ih =>
    intro seen
    by_cases h : r ∈ seen
    · rw [dedupGo, if_pos h]
      constructor
      · rintro hm
        obtain ⟨ha, hs⟩ := ih.mp hm
        exact ⟨List.mem_cons_of_mem _ ha, hs⟩
      · rintro ⟨ha, hs⟩
        rcases List.mem_cons.mp ha with rfl | ha
        · exact absurd h hs
        · exact ih.mpr ⟨ha, hs⟩
    · rw [dedupGo, if_neg h]
      constructor
      · intro hm
        rcases List.mem_cons.mp hm with rfl | hm
        · exact ⟨List.mem_cons_self _ _, h⟩
        · obtain ⟨ha, hs⟩ := ih.mp hm
          exact ⟨List.mem_cons_of_mem _ ha,
            fun hc => hs (List.mem_cons_of_mem _ hc)⟩
      · rintro ⟨ha, hs⟩
        rcases List.mem_cons.mp ha with rfl | ha
        · exact List.mem_cons_self _ _
        · by_cases har : a = r
          · exact har ▸ List.mem_cons_self _ _
          · exact List.mem_cons_of_mem _
              (ih.mpr ⟨ha, by simp [List.mem_cons, har, hs]⟩)

theorem nodup_dedupGo : ∀ (l seen : List Record), (dedupGo l seen).Nodup := by
  intro l
  induction l with
  | nil => intro seen; simp [dedupGo]
  | cons r rs ih =>
    intro seen
    by_cases h : r ∈ seen
    · rw [dedupGo, if_pos h]; exact ih seen
    · rw [dedupGo, if_neg h]
      refine List.nodup_cons.mpr ⟨fun hc => ?_, ih _⟩
      exact (mem_dedupGo.mp hc).2 (List.mem_cons_self _ _)

theorem dedupGo_eq_nil : ∀ (l seen : List Record), (∀ n ∈ l, n ∈ seen) →
    dedupGo l seen = [] := by
  intro l
  induction l with
  | nil => intro seen _; rfl
  | cons r rs ih =>
    intro seen h
    rw [dedupGo, if_pos (h r (List.mem_cons_self _ _))]
    exact ih seen fun n hn => h n (List.mem_cons_of_mem _ hn)

theorem dedupGo_append : ∀ (R : List Record) (N seen : List Record),
    (∀ n ∈ N, n ∈ R ∨ n ∈ seen) → dedupGo (R ++ N) seen = dedupGo R seen := by
  intro R
  induction R with
  | nil =>
    intro N seen h
    rw [List.nil_append]
    exact dedupGo_eq_nil N seen fun n hn => ((h n hn).resolve_left (by simp))
  | cons r rs ih =>
    intro N seen h
    by_cases hr : r ∈ seen
    · rw [List.cons_append, dedupGo, if_pos hr, dedupGo, if_pos hr]
      refine ih N seen fun n hn => ?_
      rcases h n hn with hR | hs
      · rcases List.mem_cons.mp hR with rfl | hR
        · exact Or.inr hr
        · exact Or.inl hR
      · exact Or.inr hs
    · rw [List.cons_append, dedupGo, if_neg hr, dedupGo, if_neg hr]
      refine congrArg (r :: ·) (ih N (r :: seen) fun n hn => ?_)
      rcases h n hn with hR | hs
      · rcases List.mem_cons.mp hR with rfl | hR
        · exact Or.inr (List.mem_cons_self _ _)
        · exact Or.inl hR
      · exact Or.inr (List.mem_cons_of_mem _ hs)

theorem dedupGo_eq_self : ∀ (R seen : List Record), R.Nodup →
    (∀ r ∈ R, r ∉ seen) → dedupGo R seen = R := by
  intro R
  induction R with
  | nil => intro seen _ _; rfl
  | cons r rs ih =>
    intro seen hnd hs
    rw [dedupGo, if_neg (hs r (List.mem_cons_self _ _))]
    refine congrArg (r :: ·) (ih (r :: seen) (List.nodup_cons.mp hnd).2 ?_)
    intro x hx hc
    rcases List.mem_cons.mp hc with rfl | hc
    · exact (List.nodup_cons.mp hnd).1 hx
    · exact hs x (List.mem_cons_of_mem _ hx) hc

/-! ## Lemmas about the merge engine -/

theorem nodup_merge (M N : List Record) : (merge M N).Nodup :=
  (List.mergeSort_perm (dedupFirst (M ++ N)) keyLe).nodup_iff.mpr
    (nodup_dedupGo _ _)

theorem sorted_merge (M N : List Record) :
    (merge M N).Pairwise (fun a b => keyLe a b = true) :=
  List.sorted_mergeSort keyLe_trans keyLe_total (dedupFirst (M ++ N))

theorem mem_merge_iff {a : Record} {M N : List Record} :
    a ∈ merge M N ↔ a ∈ M ∨ a ∈ N := by
  rw [merge, List.mem_mergeSort, dedupFirst, mem_dedupGo]
  simp [List.mem_append]

/-! ## Lemmas about the gap planner -/

theorem mem_planGapsPair {u : WorkUnit} {master : List Record} {C : Nat}
    {fmt cat : String} :
    u ∈ planGapsPair master C fmt cat ↔
      u.2.1 = fmt ∧ u.2.2 = cat ∧ watermark master fmt cat < u.1 ∧ u.1 ≤ C := by
  obtain ⟨d, f, c⟩ := u
  rw [planGapsPair]
  by_cases h : watermark master fmt cat ≥ C
  · rw [if_pos h]
    simp only [List.not_mem_nil, false_iff]
    rintro ⟨_, _, h1, h2⟩
    omega
  · rw [if_neg h]
    simp only [List.mem_map, List.mem_range]
    constructor
    · rintro ⟨i, hi, heq⟩
      obtain ⟨rfl, rfl, rfl⟩ : watermark master fmt cat + 1 + i = d ∧ fmt = f ∧ cat = c := by
        simpa [Prod.ext_iff] using heq
      refine ⟨rfl, rfl, by omega, by omega⟩
    · rintro ⟨rfl, rfl, h1, h2⟩
      exact ⟨d - (watermark master f c + 1), by omega, by simp [Prod.ext_iff]; omega⟩

theorem nodup_planGapsPair (master : List Record) (C : Nat) (fmt cat : String) :
    (planGapsPair master C fmt cat).Nodup := by
  rw [planGapsPair]
  by_cases h : watermark master fmt cat ≥ C
  · rw [if_pos h]; exact List.nodup_nil
  · rw [if_neg h]
    refine List.Nodup.map ?_ (List.nodup_range _)
    intro i j hij
    simpa [Prod.ext_iff] using hij

/-- Number of occurrences of the work unit `u` in a job list. -/
def countUnit (u : WorkUnit) (l : List WorkUnit) : Nat :=
  (l.filter fun v => decide (v = u)).length

theorem countUnit_nil (u : WorkUnit) : countUnit u [] = 0 := rfl

theorem countUnit_append (u : WorkUnit) (l₁ l₂ : List WorkUnit) :
    countUnit u (l₁ ++ l₂) = countUnit u l₁ + countUnit u l₂ := by
  simp [countUnit, List.filter_append]

theorem countUnit_eq_of_nodup {l : List WorkUnit} (h : l.Nodup) (u : WorkUnit) :
    countUnit u l = if u ∈ l then 1 else 0 := by
  induction l with
  | nil => simp [countUnit]
  | cons x xs ih =>
    obtain ⟨hx, hnd⟩ := List.nodup_cons.mp h
    by_cases hux : x = u
    · subst hux
      have h0 : xs.filter (fun v => decide (v = x)) = [] := by
        rw [List.filter_eq_nil_iff]
        intro a ha
        simp only [decide_eq_true_eq]
        rintro rfl
        exact hx ha
      simp [countUnit, List.filter_cons, h0]
    · have hd : (decide (x = u)) = false := by simp [hux]
      rw [countUnit, List.filter_cons, hd]
      simp only [Bool.false_eq_true, if_false, List.mem_cons]
      rw [show (xs.filter fun v => decide (v = u)).length = countUnit u xs from rfl,
        ih hnd]
      simp [Ne.symm hux]

theorem count_planGapsPair (master : List Record) (C : Nat) (fmt cat : String)
    (d : Nat) (f c : String) :
    countUnit (d, f, c) (planGapsPair master C fmt cat) =
      if f = fmt ∧ c = cat ∧ watermark master fmt cat < d ∧ d ≤ C then 1 else 0 := by
  rw [countUnit_eq_of_nodup (nodup_planGapsPair master C fmt cat)]
  simp only [mem_planGapsPair]

theorem mem_planGaps {u : WorkUnit} {master : List Record} {C : Nat}
    {formats categories : List String} :
    u ∈ planGaps master C formats categories ↔
      u.2.1 ∈ formats ∧ u.2.2 ∈ categories ∧
        watermark master u.2.1 u.2.2 < u.1 ∧ u.1 ≤ C := by
  simp only [planGaps, List.mem_flatMap, mem_planGapsPair]
  constructor
  · rintro ⟨fmt, hf, cat, hc, h1, h2, h3, h4⟩
    subst h1; subst h2
    exact ⟨hf, hc, h3, h4⟩
  · rintro ⟨hf, hc, h3, h4⟩
    exact ⟨u.2.1, hf, u.2.2, hc, rfl, rfl, h3, h4⟩

theorem planGaps_eq (master : List Record) (C : Nat) :
    planGaps master C FORMATS CATEGORIES =
      planGapsPair master C "odi" "batting" ++ planGapsPair master C "odi" "bowling" ++
      (planGapsPair master C "test" "batting" ++ planGapsPair master C "test" "bowling") := by
  simp [planGaps, FORMATS, CATEGORIES]

/-! ## Claim theorems -/

/-- C1.  Gap-planning completeness: every emitted unit is for a pair of the
cartesian product `{odi,test} × {batting,bowling}` and has a date in the
half-open-at-left interval `(W, C]` for that pair's watermark `W`; and for
every pair of the product and every date `d`, exactly one unit is emitted when
`W < d ≤ C` and none otherwise (hence no duplicates, zero units for a pair
when `W ≥ C`, and no unit dated outside `(W, C]`). -/
theorem planGaps_complete (master : List Record) (C : Nat) :
    (∀ u ∈ planGaps master C FORMATS CATEGORIES,
        u.2.1 ∈ FORMATS ∧ u.2.2 ∈ CATEGORIES ∧
          watermark master u.2.1 u.2.2 < u.1 ∧ u.1 ≤ C) ∧
    (∀ fmt ∈ FORMATS, ∀ cat ∈ CATEGORIES, ∀ d : Nat,
        countUnit (d, fmt, cat) (planGaps master C FORMATS CATEGORIES) =
          if watermark master fmt cat < d ∧ d ≤ C then 1 else 0) := by
  constructor
  · intro u hu
    exact mem_planGaps.mp hu
  · intro fmt hf cat hc d
    rw [planGaps_eq, countUnit_append, countUnit_append, countUnit_append]
    simp only [count_planGapsPair]
    rcases show fmt = "odi" ∨ fmt = "test" by simpa [FORMATS] using hf with rfl | rfl <;>
      rcases show cat = "batting" ∨ cat = "bowling" by simpa [CATEGORIES] using hc with rfl | rfl <;>
      simp +decide

/-- C1 witness: at the empty master with cutoff 1971-01-05, the pair
`(odi, batting)` gets exactly one unit dated 1971-01-05. -/
theorem planGaps_complete_witness :
    countUnit (day19710105, "odi", "batting")
      (planGaps [] day19710105 FORMATS CATEGORIES) = 1 := by
  rw [(planGaps_complete [] day19710105).2 "odi" (by decide) "batting" (by decide)
    day19710105]
  decide

/-- C2.  Merge idempotence: merging the same new-record batch a second time
into the result of the first merge leaves the dataset unchanged — duplicate
identity tuples collapse. -/
theorem merge_idempotent (M N : List Record) : merge (merge M N) N = merge M N := by
  have hnd : (merge M N).Nodup := nodup_merge M N
  have hdedup : dedupFirst (merge M N ++ N) = merge M N := by
    rw [dedupFirst, dedupGo_append _ _ _
      (fun n hn => Or.inl (mem_merge_iff.mpr (Or.inr hn)))]
    exact dedupGo_eq_self _ _ hnd (by simp)
  show (dedupFirst (merge M N ++ N)).mergeSort keyLe = merge M N
  rw [hdedup]
  exact List.mergeSort_of_sorted (sorted_merge M N)

/-- C3.  Master-dataset invariant after merge: the merged dataset contains no
two records sharing the full identity tuple
`(date, format, category, rank, player, rating)` (i.e. it has no duplicate
records), and it is sorted ascending by `(format, category, date, rank)`. -/
theorem merge_invariant (M N : List Record) :
    (merge M N).Nodup ∧
      (merge M N).Pairwise (fun a b => keyLe a b = true) :=
  ⟨nodup_merge M N, sorted_merge M N⟩

/-- C7 counterexample: with an empty master, cutoff 1971-01-05 and the
enumerations restricted to `{odi}` and `{batting}`, the planner emits five
units (1971-01-01 through 1971-01-05), not exactly the one unit
`(1971-01-05, odi, batting)` the claim states. -/
theorem scenario_one_unit_counterexample :
    (planGaps [] day19710105 ["odi"] ["batting"]).length = 5 ∧
      planGaps [] day19710105 ["odi"] ["batting"] ≠
        [(day19710105, "odi", "batting")] := by
  constructor
  · decide
  · decide

/-- C7 amended: with an empty master, cutoff 1971-01-05, formats `{odi}` and
categories `{batting}`, the planner emits exactly five units, one per date
from 1971-01-01 through 1971-01-05 inclusive — among them
`(1971-01-05, odi, batting)`. -/
theorem scenario_empty_master_plan :
    planGaps [] day19710105 ["odi"] ["batting"] =
      [(day19710101, "odi", "batting"), (day19710101 + 1, "odi", "batting"),
        (day19710101 + 2, "odi", "batting"), (day19710101 + 3, "odi", "batting"),
        (day19710105, "odi", "batting")] := by
  decide

/-- C10.  Implicit fresh-pair epoch: a pair with no records in the master gets
the sentinel watermark `1970-12-31` (`datetime(1971,1,1) - timedelta(days=1)`),
so its planned dates are exactly 1971-01-01 through the cutoff inclusive
rather than an unbounded range. -/
theorem fresh_pair_epoch (master : List Record) (C : Nat) (fmt cat : String)
    (hf : fmt ∈ FORMATS) (hc : cat ∈ CATEGORIES)
    (h : master.filter (fun r => r.format == fmt && r.category == cat) = []) :
    watermark master fmt cat = freshSentinel ∧
      dateToStr (watermark master fmt cat) = "1970/12/31" ∧
      ∀ d : Nat, ((d, fmt, cat) ∈ planGaps master C FORMATS CATEGORIES ↔
        day19710101 ≤ d ∧ d ≤ C) := by
  have hw : watermark master fmt cat = freshSentinel := by
    rw [watermark, h]
  refine ⟨hw, by rw [hw]; decide, fun d => ?_⟩
  rw [mem_planGaps]
  simp only [hw]
  constructor
  · rintro ⟨_, _, h1, h2⟩
    constructor
    · simpa [freshSentinel, day19710101] using h1
    · exact h2
  · rintro ⟨h1, h2⟩
    refine ⟨hf, hc, ?_, h2⟩
    simpa [freshSentinel, day19710101] using h1

/-- C10 witness: the empty master at cutoff 1971-01-05. -/
theorem fresh_pair_epoch_witness :
    watermark [] "odi" "batting" = freshSentinel ∧
      ((day19710101, "odi", "batting") ∈ planGaps [] day19710105 FORMATS CATEGORIES ↔
        day19710101 ≤ day19710101 ∧ day19710101 ≤ day19710105) := by
  have h := fresh_pair_epoch [] day19710105 "odi" "batting" (by decide) (by decide) rfl
  exact ⟨h.1, h.2.2 day19710101⟩

/-- C4.  Cutoff strictness: when the current IST date falls exactly on a
Tuesday (`weekday() == 1`, i.e. day number ≡ 1 mod 7), strict mode returns the
date 7 days earlier, not the current date. -/
theorem last_tuesday_strict (nowIST : Int) (h : nowIST % 7 = 1) :
    last_tuesday_ist nowIST true = nowIST - 7 ∧
      last_tuesday_ist nowIST true ≠ nowIST := by
  rw [last_tuesday_ist]
  simp only [h]
  norm_num

/-- C4 witness: 1971-01-05 (day 25936 since 1900-01-01) is a Tuesday. -/
theorem last_tuesday_strict_witness :
    (25936 : Int) % 7 = 1 ∧ last_tuesday_ist 25936 true = 25936 - 7 :=
  ⟨by decide, (last_tuesday_strict 25936 (by decide)).1⟩

/-! ## Lemmas about the retry loop -/

theorem isFailB_resp_ne {r : Response} (h : isFailB (.resp r) = true) :
    ¬ r.status = 200 := by
  simpa [isFailB] using h

/-- The trace contributed by attempts `k, k+1, …, k+n-1` when they all fail. -/
def failTrace (oracle : Nat → Attempt) : Nat → Nat → List Ev
  | _, 0 => []
  | k, n + 1 => evFail (oracle k) ++ failTrace oracle (k + 1) n

/-- A run whose every attempt fails returns no records; its trace is the
concatenation of the failed attempts' events. -/
theorem scrapeAttempts_all_fail (dStr f c : String) (oracle : Nat → Attempt) :
    ∀ (fuel k : Nat), (∀ i, k ≤ i → i < k + fuel → isFailB (oracle i) = true) →
      scrapeAttempts dStr f c oracle k fuel = ([], failTrace oracle k fuel) := by
  intro fuel
  induction fuel with
  | zero => intro k _; rfl
  | succ fuel ih =>
    intro k h
    have hk : isFailB (oracle k) = true := h k le_rfl (by omega)
    have htail := ih (k + 1) fun i h1 h2 => h i (by omega) (by omega)
    rw [failTrace]
    cases ho : oracle k with
    | exn =>
      rw [scrapeAttempts, ho]
      dsimp only
      rw [htail]
      simp [evFail]
    | resp r =>
      rw [ho] at hk
      rw [scrapeAttempts, ho]
      dsimp only
      rw [if_neg (isFailB_resp_ne hk), htail]
      simp [evFail]

/-- A run whose first `m` attempts fail and whose attempt `m` succeeds returns
the parse of the successful response; its trace is the failed attempts' events
followed by the one successful request, after which the loop stops. -/
theorem scrapeAttempts_success (dStr f c : String) (oracle : Nat → Attempt)
    (r : Response) (hs : r.status = 200) :
    ∀ (m k fuel : Nat), m < fuel → (∀ i, i < m → isFailB (oracle (k + i)) = true) →
      oracle (k + m) = .resp r →
      scrapeAttempts dStr f c oracle k fuel =
        (parseRecords dStr f c r.tables,
          failTrace oracle k m ++ [.req (.resp r)]) := by
  intro m
  induction m with
  | zero =>
    intro k fuel hfuel _ ho
    rw [Nat.add_zero] at ho
    obtain ⟨fu, rfl⟩ : ∃ fu, fuel = fu + 1 := ⟨fuel - 1, by omega⟩
    rw [scrapeAttempts, ho]
    dsimp only
    rw [if_pos hs]
    simp [failTrace]
  | succ m ih =>
    intro k fuel hfuel hfail ho
    obtain ⟨fu, rfl⟩ : ∃ fu, fuel = fu + 1 := ⟨fuel - 1, by omega⟩
    have hk : isFailB (oracle k) = true := by
      simpa using hfail 0 (Nat.succ_pos m)
    have htail := ih (k + 1) fu (by omega)
      (fun i h1 => by
        have h2 := hfail (i + 1) (by omega)
        rw [show k + 1 + i = k + (i + 1) by omega]
        exact h2)
      (by rw [show k + 1 + m = k + (m + 1) by omega]; exact ho)
    rw [failTrace]
    cases hora : oracle k with
    | exn =>
      rw [scrapeAttempts, hora]
      dsimp only
      rw [htail]
      simp [evFail]
    | resp r' =>
      rw [hora] at hk
      rw [scrapeAttempts, hora]
      dsimp only
      rw [if_neg (isFailB_resp_ne hk), htail]
      simp [evFail]

/-- Each failed attempt contributes exactly one request event. -/
theorem filter_isReq_evFail (a : Attempt) : (evFail a).filter isReq = [.req a] := by
  cases a <;> rfl

theorem countReqs_failTrace (oracle : Nat → Attempt) :
    ∀ (n k : Nat), countReqs (failTrace oracle k n) = n := by
  intro n
  induction n with
  | zero => intro k; rfl
  | succ n ih =>
    intro k
    rw [failTrace, countReqs, List.filter_append, List.length_append,
      filter_isReq_evFail]
    simp only [countReqs] at ih
    rw [ih (k + 1)]
    simp [Nat.add_comm]

/-- C5.  Fetch degradation: `scrape_date` is a total function (it never
raises); a unit whose every attempt fails returns the empty list, and a unit
whose page is fetched with status 200 but yields zero usable rows returns the
empty list at once, making exactly `j + 1` requests (no further retries). -/
theorem scrape_date_degrades (d : Nat) (f c : String) (oracle : Nat → Attempt) :
    ((∀ i, i < MAX_RETRIES → isFailB (oracle i) = true) →
      (scrape_date d f c oracle).1 = []) ∧
    (∀ j r, j < MAX_RETRIES → (∀ i, i < j → isFailB (oracle i) = true) →
      oracle j = .resp r → r.status = 200 →
      parseRecords (dateToStr d) f c r.tables = [] →
      (scrape_date d f c oracle).1 = [] ∧
        countReqs (scrape_date d f c oracle).2 = j + 1) := by
  constructor
  · intro h
    rw [scrape_date, scrapeAttempts_all_fail (dateToStr d) f c oracle MAX_RETRIES 0
      (fun i h1 h2 => h i (by omega))]
  · intro j r hj hfail ho hs hp
    have hsucc := scrapeAttempts_success (dateToStr d) f c oracle r hs j 0 MAX_RETRIES
      hj (fun i hi => by rw [Nat.zero_add]; exact hfail i hi)
      (by rw [Nat.zero_add]; exact ho)
    rw [scrape_date, hsucc]
    refine ⟨hp, ?_⟩
    have hft := countReqs_failTrace oracle j 0
    simp only [countReqs] at hft ⊢
    rw [List.filter_append, List.length_append, hft]
    rfl

/-- C5 witness: an all-exceptions unit and an empty-page unit both degrade to
the empty list; the empty-page unit makes exactly one request. -/
theorem scrape_date_degrades_witness :
    (scrape_date day19710105 "odi" "batting" (fun _ => .exn)).1 = [] ∧
      (scrape_date day19710105 "odi" "batting" (fun _ => .resp ⟨200, []⟩)).1 = [] ∧
      countReqs (scrape_date day19710105 "odi" "batting"
        (fun _ => .resp ⟨200, []⟩)).2 = 1 := by
  refine ⟨(scrape_date_degrades day19710105 "odi" "batting" _).1 (fun i _ => rfl),
    ((scrape_date_degrades day19710105 "odi" "batting" _).2 0 ⟨200, []⟩ (by decide)
      (fun i hi => absurd hi (Nat.not_lt_zero i)) rfl rfl rfl).1,
    ((scrape_date_degrades day19710105 "odi" "batting" _).2 0 ⟨200, []⟩ (by decide)
      (fun i hi => absurd hi (Nat.not_lt_zero i)) rfl rfl rfl).2⟩

/-- The C6 claim as stated, as a decidable check on a trace: every failed
attempt that is followed by another attempt must be immediately followed by a
backoff event. -/
def backoffClaim : List Ev → Bool
  | [] => true
  | e :: rest =>
    if isFailedReq e && rest.any isReq then
      match rest with
      | .slept :: _ => backoffClaim rest
      | _ => false
    else backoffClaim rest

/-- C6 counterexample: a unit whose three attempts all return status 404
retries with no backoff at all (`continue` skips the `time.sleep(1)`, which
sits only in the `except` handler), so a failed attempt is followed directly
by the next request. -/
theorem backoff_counterexample :
    (scrape_date day19710105 "odi" "batting" (fun _ => .resp ⟨404, []⟩)).2 =
      [.req (.resp ⟨404, []⟩), .req (.resp ⟨404, []⟩), .req (.resp ⟨404, []⟩)] ∧
      backoffClaim (scrape_date day19710105 "odi" "batting"
        (fun _ => .resp ⟨404, []⟩)).2 = false :=
  ⟨rfl, rfl⟩

/-- The amended backoff discipline as a decidable check: a backoff event
occurs exactly immediately after each exception-failed attempt (never after a
status-failed attempt, which retries immediately, and never anywhere else). -/
def backoffAmended : List Ev → Bool
  | [] => true
  | .req .exn :: rest =>
    match rest with
    | .slept :: rest' => backoffAmended rest'
    | _ => false
  | .slept :: _ => false
  | .req (.resp _) :: rest => backoffAmended rest

/-- C6 amended: in every `scrape_date` trace, each attempt that fails by a
transport/parse exception is immediately followed by the fixed 1-time-unit
backoff, while attempts that fail by a non-success status are never followed
by a backoff — they proceed straight to the next attempt. -/
theorem backoff_amended (d : Nat) (f c : String) (oracle : Nat → Attempt) :
    backoffAmended (scrape_date d f c oracle).2 = true := by
  rw [scrape_date]
  suffices h : ∀ fuel k,
      backoffAmended (scrapeAttempts (dateToStr d) f c oracle k fuel).2 = true from
    h MAX_RETRIES 0
  intro fuel
  induction fuel with
  | zero => intro k; rfl
  | succ fuel ih =>
    intro k
    cases ho : oracle k with
    | exn =>
      rw [scrapeAttempts, ho]
      dsimp only
      simp only [backoffAmended]
      exact ih (k + 1)
    | resp r =>
      by_cases hs : r.status = 200
      · rw [scrapeAttempts, ho]
        dsimp only
        rw [if_pos hs]
        rfl
      · rw [scrapeAttempts, ho]
        dsimp only
        rw [if_neg hs]
        simp only [backoffAmended]
        exact ih (k + 1)

/-- The record list C8 says a successful fetch produces, following the spec's
words ("parse the response body's first table, skip its header row, take at
most the first 100 data rows"), for comparison with what the code computes. -/
def firstTableRecords (dateStr fmt cat : String)
    (tables : List (List (List String))) : List RawRecord :=
  (((tables.headD []).drop 1).take 100).filterMap (rowToRecord dateStr fmt cat)

/-- C8 counterexample: on a body with two tables — the first holding only a
header row, the second holding one data row — the code produces a record taken
from the second table (`soup.select("table tr")` collects the rows of every
table), while the first table alone yields no record after its header is
skipped. -/
theorem row_extraction_counterexample :
    (scrape_date day19710105 "odi" "batting"
        (fun _ => .resp ⟨200, [[["h"]], [["1", " A ", "900"]]]⟩)).1 =
      [⟨"1971/01/05", "odi", "batting", "1", "A", "900"⟩] ∧
      firstTableRecords "1971/01/05" "odi" "batting"
        [[["h"]], [["1", " A ", "900"]]] = [] := by
  constructor
  · decide
  · rfl

/-- C8 amended: on a successful fetch (status 200 at attempt `j`, all earlier
attempts failed) the produced record list comes from the rows of all tables of
the body in document order with the overall first row skipped, contains at
most 100 records, includes only rows with at least three cells (shorter rows
are silently dropped), and each record carries the first three cell texts
trimmed of surrounding whitespace, tagged with the unit's date in `YYYY/MM/DD`
string form, format, and category. -/
theorem row_extraction (d : Nat) (f c : String) (oracle : Nat → Attempt)
    (j : Nat) (r : Response) (hj : j < MAX_RETRIES)
    (hfail : ∀ i, i < j → isFailB (oracle i) = true)
    (ho : oracle j = .resp r) (hs : r.status = 200) :
    (scrape_date d f c oracle).1 =
        ((r.tables.flatten.drop 1).take 100).filterMap
          (rowToRecord (dateToStr d) f c) ∧
      (scrape_date d f c oracle).1.length ≤ 100 ∧
      ∀ rec ∈ (scrape_date d f c oracle).1,
        rec.dateStr = dateToStr d ∧ rec.format = f ∧ rec.category = c ∧
          ∃ row ∈ (r.tables.flatten.drop 1).take 100, ∃ c0 c1 c2 rest,
            row = c0 :: c1 :: c2 :: rest ∧ rec.rank = trimText c0 ∧
              rec.player = trimText c1 ∧ rec.rating = trimText c2 := by
  have h1 : (scrape_date d f c oracle).1 = parseRecords (dateToStr d) f c r.tables := by
    rw [scrape_date, scrapeAttempts_success (dateToStr d) f c oracle r hs j 0
      MAX_RETRIES hj (fun i hi => by rw [Nat.zero_add]; exact hfail i hi)
      (by rw [Nat.zero_add]; exact ho)]
  refine ⟨h1, ?_, ?_⟩
  · rw [h1, parseRecords]
    exact le_trans (List.length_filterMap_le _ _)
      (by rw [parseRows]; exact List.length_take_le _ _)
  · intro rec hrec
    rw [h1, parseRecords, parseRows] at hrec
    obtain ⟨row, hrow, heq⟩ := List.mem_filterMap.mp hrec
    match row, heq with
    | c0 :: c1 :: c2 :: rest, heq =>
      rw [rowToRecord] at heq
      obtain rfl := Option.some.inj heq
      exact ⟨rfl, rfl, rfl, c0 :: c1 :: c2 :: rest, hrow,
        c0, c1, c2, rest, rfl, rfl, rfl, rfl⟩

/-- C8 witness: a successful first attempt over a two-row table. -/
theorem row_extraction_witness :
    (scrape_date day19710105 "odi" "batting"
        (fun _ => .resp ⟨200, [[["h"], ["1", " A ", "900"]]]⟩)).1 =
      (([[["h"], ["1", " A ", "900"]]].flatten.drop 1).take 100).filterMap
        (rowToRecord (dateToStr day19710105) "odi" "batting") :=
  (row_extraction day19710105 "odi" "batting" _ 0 ⟨200, [[["h"], ["1", " A ", "900"]]]⟩
    (by decide) (fun i hi => absurd hi (Nat.not_lt_zero i)) rfl rfl).1

/-- C9.  No-write short-circuit: an empty job list ends the run before any
fetch or write (`mainRun` returns `none`, the file is untouched), and a
non-empty job list whose fetches produce zero records across all units also
ends the run without writing. -/
theorem mainRun_no_write (master : List Record) (endDate : Nat)
    (fetch : WorkUnit → List Record) :
    (planGaps master endDate FORMATS CATEGORIES = [] →
      mainRun master endDate fetch = none) ∧
    ((planGaps master endDate FORMATS CATEGORIES).flatMap fetch = [] →
      mainRun master endDate fetch = none) := by
  constructor
  · intro h
    rw [mainRun]
    simp [h]
  · intro h
    rw [mainRun]
    by_cases hj : planGaps master endDate FORMATS CATEGORIES = []
    · simp [hj]
    · simp [hj, h]

/-- C9 witness: a fully covered master (cutoff equal to the sentinel) plans no
jobs and writes nothing; with a later cutoff, all-empty fetches also write
nothing. -/
theorem mainRun_no_write_witness :
    mainRun [] freshSentinel (fun _ => []) = none ∧
      mainRun [] day19710105 (fun _ => []) = none :=
  ⟨(mainRun_no_write [] freshSentinel (fun _ => [])).1 (by decide),
    (mainRun_no_write [] day19710105 (fun _ => [])).2 (by decide)⟩

end ICC
